import Mathlib

/-!
Shallow embedding of `satander_extract.py` (Santander spreadsheet converter).

Strings are modelled as `List Char`; spreadsheet cells as the closed variant
`Cell` (string / numeric / empty).  The Python regex searches are embedded as
explicit leftmost scanners whose backtracking behaviour is reproduced for the
concrete patterns in the source (the patterns are simple enough that greedy
matching with a bounded amount of backtracking is exact).  Case folding is
ASCII, matching the ASCII inputs the heuristics target.
-/

set_option autoImplicit false

/-- Spreadsheet cell variants: string, numeric, or empty (`NaN`). -/
inductive Cell : Type where
  | str (s : String)
  | num (n : Int)
  | empty
deriving DecidableEq, Repr

/-- ASCII uppercase letter. -/
def isUpperA (c : Char) : Bool := 'A' ≤ c && c ≤ 'Z'

/-- ASCII lowercase letter. -/
def isLowerA (c : Char) : Bool := 'a' ≤ c && c ≤ 'z'

/-- ASCII letter. -/
def isAlphaA (c : Char) : Bool := isUpperA c || isLowerA c

/-- ASCII digit. -/
def isDigitA (c : Char) : Bool := '0' ≤ c && c ≤ '9'

/-- Python regex `\w` restricted to ASCII: letter, digit or underscore. -/
def isWordC (c : Char) : Bool := isAlphaA c || isDigitA c || c = '_'

/-- Wordness of an optional character; out-of-string counts as non-word. -/
def wordO : Option Char → Bool
  | some c => isWordC c
  | none => false

/-- Python `str.isspace`-style whitespace as used by `strip()`. -/
def isWsC (c : Char) : Bool := c = ' ' || c = '\t' || c = '\n' || c = '\r'

/-- Characters stripped by the Python strip calls with the separator set space, slash, dash. -/
def isSep3 (c : Char) : Bool := c = ' ' || c = '/' || c = '-'

/-- Characters stripped by the Python rstrip calls with the set space, dash. -/
def isSep2 (c : Char) : Bool := c = ' ' || c = '-'

/-- Drop matching characters from the right end (Python `rstrip`). -/
def rdropWhile (p : Char → Bool) (l : List Char) : List Char :=
  (l.reverse.dropWhile p).reverse

/-- Python `str.strip()` (both ends, whitespace). -/
def stripWs (l : List Char) : List Char :=
  rdropWhile isWsC (l.dropWhile isWsC)

/-- Python strip (both ends) over the separator set space, slash, dash. -/
def stripSep3 (l : List Char) : List Char :=
  rdropWhile isSep3 (l.dropWhile isSep3)

/-- Case-insensitive (ASCII) character equality, as under `re.I`. -/
def ciEq (a b : Char) : Bool := a.toUpper = b.toUpper

/-- Case-insensitively strip a literal pattern from the front, returning the
remainder on success. -/
def stripPrefixCi : List Char → List Char → Option (List Char)
  | [], l => some l
  | _ :: _, [] => none
  | p :: ps, c :: cs => if ciEq p c then stripPrefixCi ps cs else none

/-- Python `pat in s` substring test. -/
def containsTok (l pat : List Char) : Bool :=
  match l with
  | [] => pat.isEmpty
  | _ :: cs => pat.isPrefixOf l || containsTok cs pat

/-- Fuel-driven worker for `replaceL`; the fuel is an upper bound on the
input length, so the zero-fuel branch is never reached from `replaceL`. -/
def replaceGo (pat rep : List Char) : Nat → List Char → List Char
  | 0, l => l
  | fuel + 1, l =>
    match l with
    | [] => []
    | c :: cs =>
      if !pat.isEmpty && pat.isPrefixOf (c :: cs) then
        rep ++ replaceGo pat rep fuel (cs.drop (pat.length - 1))
      else
        c :: replaceGo pat rep fuel cs

/-- Python `str.replace(pat, rep)`: replace every (leftmost, non-overlapping)
occurrence. `pat` is assumed nonempty by all call sites. -/
def replaceL (pat rep : List Char) (l : List Char) : List Char :=
  replaceGo pat rep l.length l

/-- Python `str.upper()` (ASCII case mapping). -/
def toUpperL (l : List Char) : List Char := l.map Char.toUpper

/-- Python `str.upper().strip()` on a cell, `""` for non-strings
(`UPPER_STRIP` in the source). -/
def upperStrip (c : Cell) : List Char :=
  match c with
  | .str s => stripWs (toUpperL s.data)
  | _ => []

/-- Python `str(v)` for cell values (`NaN` prints as `nan`). -/
def cellStr (c : Cell) : List Char :=
  match c with
  | .str s => s.data
  | .num n => (toString n).data
  | .empty => "nan".data

/-- Leftmost regex search: try the position matcher `f` at every start
position (with the preceding character supplied for word-boundary tests) and
return the first hit together with its start index. -/
def scanFrom {α : Type} (f : Option Char → List Char → Option α) :
    Option Char → Nat → List Char → Option (Nat × α)
  | prev, i, l =>
    match f prev l with
    | some a => some (i, a)
    | none =>
      match l with
      | [] => none
      | c :: cs => scanFrom f (some c) (i + 1) cs

/-- Run a leftmost search from the beginning of the string. -/
def reSearch {α : Type} (f : Option Char → List Char → Option α)
    (l : List Char) : Option (Nat × α) :=
  scanFrom f none 0 l

/-- Largest number of characters of the greedy run `run` (whose preceding
character is always a word character at every call site) that can be kept so
that a `\b` holds right after; mirrors the regex engine shrinking a trailing
greedy class to satisfy a final word boundary. -/
def shrinkToBoundary (run : List Char) (after : Option Char) : Option Nat :=
  (List.range (run.length + 1)).reverse.find? (fun k =>
    let lastW : Bool := if k = 0 then true else isWordC (run.getD (k - 1) ' ')
    let nextW : Bool := wordO (if k < run.length then some (run.getD k ' ') else after)
    lastW != nextW)

/-- Character class of the advice-code capture `[A-Z0-9.\x2d]` under `re.I`. -/
def isAdvCls (c : Char) : Bool := isAlphaA c || isDigitA c || c = '.' || c = '-'

/-- Number-continuation class `[\d,.]`. -/
def isNumCls (c : Char) : Bool := isDigitA c || c = ',' || c = '.'

/-- Attempt `RE_ADVICE` at the current position: literal `ADVICE#` (under
`re.I`), optional spacing, an optional colon or hash, optional spacing, an
optional dash, optional spacing, then a nonempty capture of `isAdvCls`
characters.  Returns match length and capture.  The only backtracking the
Python engine performs here is giving back the optional dash when no capture
character follows it, in which case the dash itself becomes the capture. -/
def tryAdvice (_prev : Option Char) (l : List Char) : Option (Nat × List Char) :=
  match stripPrefixCi "ADVICE#".data l with
  | none => none
  | some l1 =>
    let w1 := (l1.takeWhile isWsC).length
    let l2 := l1.dropWhile isWsC
    let p3 : Nat := match l2 with
      | c :: _ => if c = ':' || c = '#' then 1 else 0
      | [] => 0
    let l3 := l2.drop p3
    let w2 := (l3.takeWhile isWsC).length
    let l4 := l3.dropWhile isWsC
    match l4 with
    | '-' :: cs =>
      let w3 := (cs.takeWhile isWsC).length
      let l5 := cs.dropWhile isWsC
      let cap := l5.takeWhile isAdvCls
      if cap.isEmpty then
        some (7 + w1 + p3 + w2 + 1, ['-'])
      else
        some (7 + w1 + p3 + w2 + 1 + w3 + cap.length, cap)
    | _ =>
      let cap := l4.takeWhile isAdvCls
      if cap.isEmpty then none
      else some (7 + w1 + p3 + w2 + cap.length, cap)

/-- Attempt `RE_FX_CODE` (`\bFX` then eight or more digits then `\b`, under
`re.I`) at the current position; returns the match length (the capture is the
matched text itself). -/
def tryFx (prev : Option Char) (l : List Char) : Option Nat :=
  if wordO prev then none
  else
    match stripPrefixCi "FX".data l with
    | none => none
    | some l1 =>
      let ds := l1.takeWhile isDigitA
      if ds.length < 8 then none
      else if wordO (l1.drop ds.length).head? then none
      else some (2 + ds.length)

/-- Attempt `RE_GENERIC_ADV` (`\b`, four or more letters, six or more digits,
then a greedy tail of `isAdvCls` characters shrunk to satisfy the final `\b`,
under `re.I`) at the current position; returns the match length. -/
def tryGeneric (prev : Option Char) (l : List Char) : Option Nat :=
  if wordO prev then none
  else
    let letters := l.takeWhile isAlphaA
    if letters.length < 4 then none
    else
      let l1 := l.drop letters.length
      let ds := l1.takeWhile isDigitA
      if ds.length < 6 then none
      else
        let l2 := l1.drop ds.length
        let run := l2.takeWhile isAdvCls
        let after := (l2.drop run.length).head?
        match shrinkToBoundary run after with
        | none => none
        | some k => some (letters.length + ds.length + k)

/-- Attempt `RE_SLASH_QTY` (`\b`, number, slash, optional spacing, number,
`\b`) at the current position; returns match length and the two captures. -/
def trySlashQty (prev : Option Char) (l : List Char) :
    Option (Nat × List Char × List Char) :=
  if wordO prev then none
  else
    match l with
    | c :: cs =>
      if isDigitA c then
        let g1 := cs.takeWhile isNumCls
        match cs.drop g1.length with
        | '/' :: l3 =>
          let ws := (l3.takeWhile isWsC).length
          let l4 := l3.dropWhile isWsC
          match l4 with
          | d :: l5 =>
            if isDigitA d then
              let g2 := l5.takeWhile isNumCls
              let after := (l5.drop g2.length).head?
              match shrinkToBoundary g2 after with
              | none => none
              | some k =>
                some (1 + g1.length + 1 + ws + 1 + k, c :: g1, d :: g2.take k)
            else none
          | [] => none
        | _ => none
      else none
    | [] => none

/-- Attempt `RE_QTY_PT1` / `RE_QTY_PT2` (`QUANTIDADE`, optional spacing, the
given digit, one or more colon-or-space characters, then a number capture,
under `re.I`); returns match length and the capture. -/
def tryQtyPt (digit : Char) (_prev : Option Char) (l : List Char) :
    Option (Nat × List Char) :=
  match stripPrefixCi "QUANTIDADE".data l with
  | none => none
  | some l1 =>
    let w1 := (l1.takeWhile isWsC).length
    match l1.dropWhile isWsC with
    | c :: l3 =>
      if c = digit then
        let sep := (l3.takeWhile (fun x => x = ':' || isWsC x)).length
        if sep = 0 then none
        else
          match l3.drop sep with
          | d :: l5 =>
            if isDigitA d then
              let run := l5.takeWhile isNumCls
              some (10 + w1 + 1 + sep + 1 + run.length, d :: run)
            else none
          | [] => none
      else none
    | [] => none

/-- Attempt `RE_QTY_STANDALONE` (`\b`, digit, greedy number tail shrunk to
satisfy the final `\b`); returns match length and capture. -/
def tryStandalone (prev : Option Char) (l : List Char) :
    Option (Nat × List Char) :=
  if wordO prev then none
  else
    match l with
    | c :: cs =>
      if isDigitA c then
        let run := cs.takeWhile isNumCls
        let after := (cs.drop run.length).head?
        match shrinkToBoundary run after with
        | none => none
        | some k => some (1 + k, c :: run.take k)
      else none
    | [] => none

/-- Attempt `RE_DATE_TOKEN` (`\b`, two digits, three uppercase letters, two
digits, `\b`; no ignore-case flag) at the current position. -/
def tryDateTok (prev : Option Char) (l : List Char) : Option (List Char) :=
  if wordO prev then none
  else
    match l with
    | d1 :: d2 :: a1 :: a2 :: a3 :: d3 :: d4 :: rest =>
      if isDigitA d1 && isDigitA d2 && isUpperA a1 && isUpperA a2 && isUpperA a3
          && isDigitA d3 && isDigitA d4 && !(wordO rest.head?) then
        some [d1, d2, a1, a2, a3, d3, d4]
      else none
    | _ => none

/-- Attempt the inline portfolio regex (`CONTA`, optional spacing, hash,
optional spacing, digit capture, under `re.I`) at the current position. -/
def tryConta (_prev : Option Char) (l : List Char) : Option (List Char) :=
  match stripPrefixCi "CONTA".data l with
  | none => none
  | some l1 =>
    match l1.dropWhile isWsC with
    | '#' :: l2 =>
      let ds := (l2.dropWhile isWsC).takeWhile isDigitA
      if ds.isEmpty then none else some ds
    | _ => none

/-- Attempt the advice-type regex (a nonempty run of uppercase letters and
spaces immediately followed by the literal `ADVICE`, all inside that same
run; no ignore-case flag).  Greedy matching keeps the rightmost such split.
Returns the matched text. -/
def tryAdvType (_prev : Option Char) (l : List Char) : Option (List Char) :=
  let run := l.takeWhile (fun c => isUpperA c || c = ' ')
  let m := run.length
  if m < 7 then none
  else
    match (List.range (m - 5)).reverse.find? (fun j =>
        decide (1 ≤ j) && decide ((run.drop j).take 6 = "ADVICE".data)) with
    | none => none
    | some j => some (run.take (j + 6))

/-- `RE_CCY.findall`: all non-overlapping `\b([A-Z]{3})\b` matches (no
ignore-case flag), scanning left to right and resuming after each match. -/
def ccyGo : Nat → Option Char → List Char → List (List Char)
  | 0, _, _ => []
  | fuel + 1, prev, l =>
    match l with
    | [] => []
    | c1 :: cs =>
      if !(wordO prev) then
        match cs with
        | c2 :: c3 :: rest =>
          if isUpperA c1 && isUpperA c2 && isUpperA c3 && !(wordO rest.head?) then
            [c1, c2, c3] :: ccyGo fuel (some c3) rest
          else
            ccyGo fuel (some c1) cs
        | _ => ccyGo fuel (some c1) cs
      else
        ccyGo fuel (some c1) cs

/-- Entry point of the currency token scan (fuelled by the input length, an
upper bound on the number of scan steps). -/
def ccyFindall (prev : Option Char) (l : List Char) : List (List Char) :=
  ccyGo l.length prev l

/-- Decimal digit character for a value below ten (larger values clamp). -/
def digitChr : Nat → Char
  | 0 => '0' | 1 => '1' | 2 => '2' | 3 => '3' | 4 => '4'
  | 5 => '5' | 6 => '6' | 7 => '7' | 8 => '8' | _ => '9'

/-- Value of a decimal digit character. -/
def digitVal (c : Char) : Option Nat :=
  if c = '0' then some 0 else if c = '1' then some 1
  else if c = '2' then some 2 else if c = '3' then some 3
  else if c = '4' then some 4 else if c = '5' then some 5
  else if c = '6' then some 6 else if c = '7' then some 7
  else if c = '8' then some 8 else if c = '9' then some 9
  else none

/-- Two-digit zero-padded rendering (as `strftime` `%d` / `%m`). -/
def pad2 (n : Nat) : List Char := [digitChr (n / 10), digitChr (n % 10)]

/-- Four-digit rendering of a year below 10000 (as `strftime` `%Y`). -/
def fmt4 (n : Nat) : List Char :=
  [digitChr (n / 1000), digitChr (n / 100 % 10), digitChr (n / 10 % 10),
   digitChr (n % 10)]

/-- Accumulator worker for `parseDigits`. -/
def parseDigitsGo (acc : Nat) : List Char → Option Nat
  | [] => some acc
  | c :: cs =>
    match digitVal c with
    | some v => parseDigitsGo (acc * 10 + v) cs
    | none => none

/-- Parse a nonempty all-digit token into its value. -/
def parseDigits (l : List Char) : Option Nat :=
  if l.isEmpty then none else parseDigitsGo 0 l

/-- One- or two-digit day/month token. -/
def parseNat2 (l : List Char) : Option Nat :=
  if l.length = 1 || l.length = 2 then parseDigits l else none

/-- Exactly-four-digit year token. -/
def parseNat4 (l : List Char) : Option Nat :=
  if l.length = 4 then parseDigits l else none

/-- English three-letter month names, in month order. -/
def monthNames : List (List Char) :=
  ["JAN".data, "FEB".data, "MAR".data, "APR".data, "MAY".data, "JUN".data,
   "JUL".data, "AUG".data, "SEP".data, "OCT".data, "NOV".data, "DEC".data]

/-- Month number of a three-letter English month token. -/
def monthOfName (t : List Char) : Option Nat :=
  match monthNames.findIdx? (fun n => n = t) with
  | some i => some (i + 1)
  | none => none

/-- Gregorian leap-year test. -/
def isLeap (y : Nat) : Bool := y % 4 = 0 && (y % 100 ≠ 0 || y % 400 = 0)

/-- Days in a month. -/
def daysInMonth (m y : Nat) : Nat :=
  if m = 2 then (if isLeap y then 29 else 28)
  else if m = 4 || m = 6 || m = 9 || m = 11 then 30
  else 31

/-- A valid calendar date. -/
def validDMY (d m y : Nat) : Bool :=
  1 ≤ m && m ≤ 12 && 1 ≤ d && d ≤ daysInMonth m y

/-- Split a character list at every occurrence of `sep` (occurrences are
dropped; empty chunks are kept). -/
def splitOnC (sep : Char) : List Char → List (List Char)
  | [] => [[]]
  | c :: cs =>
    if c = sep then [] :: splitOnC sep cs
    else
      match splitOnC sep cs with
      | [] => [[c]]
      | t :: ts => (c :: t) :: ts

/-- Fuel-driven worker for `wsTokens`; the fuel is an upper bound on the
input length, so the zero-fuel branch is never reached from `wsTokens`. -/
def wsTokensGo : Nat → List Char → List (List Char)
  | 0, _ => []
  | fuel + 1, l =>
    match l with
    | [] => []
    | c :: cs =>
      if isWsC c then wsTokensGo fuel cs
      else (c :: cs.takeWhile (fun x => !isWsC x)) ::
        wsTokensGo fuel (cs.dropWhile (fun x => !isWsC x))

/-- Whitespace-separated tokens (empty tokens dropped). -/
def wsTokens (l : List Char) : List (List Char) := wsTokensGo l.length l

/-- Modelled from the spec: the day-first date parse performed by the external
`dateutil` parser, which is not part of this repository.  Faithful to the
spec's description on the two token shapes the normalizer can feed it: a
day / English-month-name / four-digit-year word triple (the expansion of a
compact token), and a single day-first slash date with a four-digit year.
Any other shape fails. -/
def dtparse (l : List Char) : Option (Nat × Nat × Nat) :=
  match wsTokens l with
  | [t] =>
    if '/' ∈ t then
      match splitOnC '/' t with
      | [dT, mT, yT] => do
        let d ← parseNat2 dT
        let m ← parseNat2 mT
        let y ← parseNat4 yT
        if validDMY d m y then pure (d, m, y) else none
      | _ => none
    else none
  | [dT, mT, yT] => do
    let d ← parseNat2 dT
    let m ← monthOfName mT
    let y ← parseNat4 yT
    if validDMY d m y then pure (d, m, y) else none
  | _ => none

/-- `strftime` with format `%d/%m/%Y` applied to a parsed date. -/
def fmtDate : Nat × Nat × Nat → List Char
  | (d, m, y) => pad2 d ++ ('/' :: (pad2 m ++ ('/' :: fmt4 y)))

/-- The Portuguese-to-English month substitutions of `MONTH_PT_EN`, in the
source dictionary's insertion order. -/
def monthPairs : List (List Char × List Char) :=
  [("JAN".data, "JAN".data), ("FEV".data, "FEB".data), ("MAR".data, "MAR".data),
   ("ABR".data, "APR".data), ("MAI".data, "MAY".data), ("JUN".data, "JUN".data),
   ("JUL".data, "JUL".data), ("AGO".data, "AUG".data), ("SET".data, "SEP".data),
   ("OUT".data, "OCT".data), ("NOV".data, "NOV".data), ("DEZ".data, "DEC".data)]

/-- Apply every month substitution in dictionary order. -/
def monthSubst (l : List Char) : List Char :=
  monthPairs.foldl (fun s p => replaceL p.1 p.2 s) l

/-- `RE_DATE_TOKEN.fullmatch`: exactly two digits, three uppercase letters,
two digits. -/
def isCompactTok : List Char → Bool
  | [d1, d2, a1, a2, a3, d3, d4] =>
    isDigitA d1 && isDigitA d2 && isUpperA a1 && isUpperA a2 && isUpperA a3
      && isDigitA d3 && isDigitA d4
  | _ => false

/-- Expansion of a compact token `DDMMMYY` into `DD MMM 20YY`. -/
def expandCompact : List Char → List Char
  | [d1, d2, a1, a2, a3, d3, d4] =>
    [d1, d2, ' ', a1, a2, a3, ' ', '2', '0', d3, d4]
  | l => l

/-- The transformed string `normalize_date` hands to the date parser:
strip, uppercase, month substitution, then compact-token expansion. -/
def preDate (l : List Char) : List Char :=
  let s := toUpperL (stripWs l)
  let s := monthSubst s
  if isCompactTok s then expandCompact s else s

/-- `normalize_date` on string content: parse the transformed string and
render the date, or return the original character list on failure. -/
def normStr (l : List Char) : List Char :=
  match dtparse (preDate l) with
  | some t => fmtDate t
  | none => l

/-- `normalize_date`: strings are normalized; every other cell passes
through unchanged. -/
def normalize_date (c : Cell) : Cell :=
  match c with
  | .str s => .str (String.mk (normStr s.data))
  | v => v

/-- `_clean_num`: drop thousands commas, strip leading zeros, defaulting to
`0` when nothing is left. -/
def clean_num (l : List Char) : List Char :=
  let r := (l.filter (fun c => c ≠ ',')).dropWhile (fun c => c = '0')
  if r.isEmpty then "0".data else r

/-- `_extract_advice`: first matching alternative wins (labelled advice code,
then FX code, then generic letters-plus-digits shape); the matched span is
excised from the remainder, which is then stripped of separators. -/
def extract_advice (rest : List Char) : Option (List Char) × List Char :=
  match reSearch tryAdvice rest with
  | some (i, len, cap) =>
    (some (stripSep3 cap), stripSep3 (rest.take i ++ rest.drop (i + len)))
  | none =>
    match reSearch tryFx rest with
    | some (i, len) =>
      (some ((rest.drop i).take len), stripSep3 (rest.take i ++ rest.drop (i + len)))
    | none =>
      match reSearch tryGeneric rest with
      | some (i, len) =>
        (some ((rest.drop i).take len), stripSep3 (rest.take i ++ rest.drop (i + len)))
      | none => (none, rest)

/-- The quantity stage of `parse_details` (lines 139-157 of the source):
returns the quantity record entries and the final value of `qty_end`.
`tipo` is the transaction type with the Python `or ''` default applied. -/
def qtyStage (tipo rest : List Char) : List (String × Option String) × Nat :=
  match reSearch trySlashQty rest with
  | some (i, len, g1, g2) =>
    ([("Det_Qty1", some (String.mk (clean_num g1))),
      ("Det_Qty2", some (String.mk (clean_num g2)))], i + len)
  | none =>
    let m1 := reSearch (tryQtyPt '1') rest
    let m2 := reSearch (tryQtyPt '2') rest
    let ents1 : List (String × Option String) := match m1 with
      | some (_, _, cap) => [("Det_Qty1", some (String.mk (clean_num cap)))]
      | none => []
    let ents2 : List (String × Option String) := match m2 with
      | some (_, _, cap) => [("Det_Qty2", some (String.mk (clean_num cap)))]
      | none => []
    let e1 : Nat := match m1 with
      | some (i, len, _) => i + len
      | none => 0
    let e2 : Nat := match m2 with
      | some (i, len, _) => max e1 (i + len)
      | none => e1
    if containsTok tipo "SECURITIES".data && m1.isNone then
      match reSearch tryStandalone rest with
      | some (i, len, cap) =>
        (ents1 ++ ents2 ++ [("Det_Qty1", some (String.mk (clean_num cap)))],
         i + len)
      | none => (ents1 ++ ents2, e2)
    else (ents1 ++ ents2, e2)

/-- The remainder handed from the quantity stage to the later stages
(line 159 of the source): the suffix of `rest` after `qty_end`, with leading
separators and surrounding whitespace stripped. -/
def qtyRemaining (tipo rest : List Char) : List Char :=
  stripWs ((rest.drop (qtyStage tipo rest).2).dropWhile isSep3)

/-- The currency whitelist of the source. -/
def ccyWhitelist : List (List Char) :=
  ["USD".data, "EUR".data, "GBP".data, "CHF".data, "BRL".data, "CAD".data,
   "JPY".data]

/-- The currency stage of `parse_details` (lines 161-167): scan the
three-uppercase-letter tokens of the remainder (or of the pre-quantity rest
when the remainder is empty) in reverse, pick the first whitelisted one, and
strip it from the remainder only when the remainder ends with it. -/
def ccyStage (remaining rest : List Char) : Option (List Char) × List Char :=
  let src := if remaining.isEmpty then rest else remaining
  match (ccyFindall none src).reverse.find? (fun c => ccyWhitelist.contains c) with
  | some c =>
    if c.isSuffixOf (toUpperL remaining) then
      (some c, stripWs (rdropWhile isSep2 (remaining.take (remaining.length - c.length))))
    else (some c, remaining)
  | none => (none, remaining)

/-- The date-token stage of `parse_details` (lines 170-173): find a compact
date token, normalize it, and delete every occurrence of the raw token from
the remainder. -/
def dateStage (remaining : List Char) :
    List (String × Option String) × List Char :=
  match reSearch tryDateTok remaining with
  | some (_, tok) =>
    ([("Det_Date", some (String.mk (normStr tok)))],
     stripWs (replaceL tok [] remaining))
  | none => ([], remaining)

/-- `parse_details` on string content, producing the record as an ordered
association list (Python dict insertion order); a value of `none` models the
Python `None`. -/
def parse_detailsL (raw : List Char) : List (String × Option String) :=
  let txt := stripWs raw
  let tipoRun := txt.takeWhile (fun c => isUpperA c || c = ' ')
  let tipo : Option (List Char) :=
    if tipoRun.isEmpty then none else some (stripWs tipoRun)
  let rest :=
    if tipoRun.isEmpty then txt
    else stripWs ((txt.drop tipoRun.length).dropWhile isSep3)
  let ar := extract_advice rest
  let adviceEnts : List (String × Option String) := match ar.1 with
    | some a => if a.isEmpty then [] else [("Det_Advice", some (String.mk a))]
    | none => []
  let rest := ar.2
  let q := qtyStage (match tipo with | some t => t | none => []) rest
  let remaining := stripWs ((rest.drop q.2).dropWhile isSep3)
  let cr := ccyStage remaining rest
  let dr := dateStage cr.2
  let advTypeEnts : List (String × Option String) :=
    match reSearch tryAdvType txt with
    | some (_, m) => [("Det_AdviceType", some (String.mk (stripWs m)))]
    | none => []
  ("Det_Tipo", tipo.map String.mk) ::
    (adviceEnts ++ (q.1 ++ (("Det_Ccy", cr.1.map String.mk) ::
      (dr.1 ++ (advTypeEnts ++ [("Det_AssetName",
        if dr.2.isEmpty then none else some (String.mk dr.2))])))))

/-- `parse_details`: non-string input yields the empty record. -/
def parse_details (raw : Cell) : List (String × Option String) :=
  match raw with
  | .str s => parse_detailsL s.data
  | _ => []

/-- A sheet grid: rows of cells. -/
def Grid : Type := List (List Cell)

/-- `UPPER_STRIP` on a plain string (column names). -/
def upperStripName (s : String) : List Char := stripWs (toUpperL s.data)

/-- `str(v).strip()` on a cell, as applied to header cells. -/
def headerName (v : Cell) : String := String.mk (stripWs (cellStr v))

/-- The loop body of `_dedup_columns`: `seen` maps each name to the number of
occurrences already processed (the Python dict with default 0). -/
def dedupGo (seen : String → Nat) : List String → List String
  | [] => []
  | c :: cs =>
    let col := if c = "" then "_" else c
    let k := seen col
    (if k = 0 then col else col ++ "_" ++ toString k) ::
      dedupGo (fun x => if x = col then k + 1 else seen x) cs

/-- `_dedup_columns`. -/
def dedup_columns (cols : List String) : List String := dedupGo (fun _ => 0) cols

/-- Empty-name placeholder substitution, as described by the spec. -/
def dedupName (c : String) : String := if c = "" then "_" else c

/-- The spec's positional description of column deduplication: the `i`-th
output is the (placeholder-substituted) name, unchanged on its first
occurrence and suffixed with the repeat index `k` on its `k`-th repeat. -/
def dedupSpec (cols : List String) : List String :=
  (List.range cols.length).map (fun i =>
    let n := dedupName (cols.getD i "")
    let k := ((cols.take i).map dedupName).count n
    if k = 0 then n else n ++ "_" ++ toString k)

/-- `extract_portfolio_id`: scan the first fifteen rows (row-major, skipping
empty cells) for the portfolio regex and return its digit capture. -/
def extract_portfolio_id (g : Grid) : Option String :=
  (List.range (min 15 g.length)).findSome? (fun i =>
    ((g.getD i []).filter (fun c => c ≠ Cell.empty)).findSome? (fun v =>
      (reSearch tryConta (cellStr v)).map (fun p => String.mk p.2)))

/-- One extracted subtable: final column names and enriched data rows. -/
structure Subtable : Type where
  cols : List String
  rows : List (List Cell)
deriving DecidableEq, Repr

/-- Keyword skip-list for holdings body rows. -/
def keywordsSkip : List (List Char) :=
  ["RESUMO DE ATIVOS".data, "NOME DO ATIVO".data, "RENDA FIXA".data,
   "CURTO PRAZO".data, "TOTAL".data]

/-- A row all of whose cells are empty (`dropna(how="all")` victim). -/
def rowAllEmpty (row : List Cell) : Bool := row.all (fun c => c = Cell.empty)

/-- Holdings anchor cells: row-major scan for cells normalizing to `ISIN` or
`NÚMERO DE CONTA`. -/
def holdingsAnchors (g : Grid) : List (Nat × Nat) :=
  g.enum.flatMap (fun p =>
    (p.2.enum).filterMap (fun q =>
      if upperStrip q.2 = "ISIN".data ∨ upperStrip q.2 = "NÚMERO DE CONTA".data
      then some (p.1, q.1) else none))

/-- The surviving body rows of the half-open row range `[a, b)`: the slice
minus fully-empty rows, minus rows whose first cell normalizes into the
keyword skip-list. -/
def bodyRows (g : Grid) (a b : Nat) : List (List Cell) :=
  (((g.drop a).take (b - a)).filter (fun row => !rowAllEmpty row)).filter
    (fun row => !keywordsSkip.contains (upperStrip (row.headD Cell.empty)))

/-- Column names containing `DATA` or `DATE` (case-insensitive substring, as
`re.search` with no anchors). -/
def isDateName (name : String) : Bool :=
  containsTok (toUpperL name.data) "DATA".data
    || containsTok (toUpperL name.data) "DATE".data

/-- Inserted metadata value: a Python `None` becomes an empty cell. -/
def optCell : Option String → Cell
  | some s => .str s
  | none => .empty

/-- Apply `normalize_date` to every cell sitting under a date-like column
name. -/
def dateNormRow (cols : List String) (row : List Cell) : List Cell :=
  row.mapIdx (fun j c => if isDateName (cols.getD j "") then normalize_date c else c)

/-- Final column names of a holdings subtable anchored at row `r`: the
deduplicated header row, truncated to the data width, with the three
metadata columns prepended. -/
def holdingsCols (g : Grid) (r : Nat) : List String :=
  let headerRow := g.getD r []
  "Portfolio" :: "AssetType" :: "AssetName" ::
    (dedup_columns (headerRow.map headerName)).take headerRow.length

/-- Enrichment of one surviving holdings body row: prepend the Portfolio,
AssetType and AssetName metadata cells, then normalize date-named columns. -/
def holdingsEnrich (g : Grid) (portfolio : String) (r c : Nat)
    (row : List Cell) : List Cell :=
  let assetType : Option String :=
    if r > 0 ∧ c > 0 then
      some (String.mk (upperStrip ((g.getD (r - 1) []).getD (c - 1) Cell.empty)))
    else none
  let assetName : Option String :=
    if c > 0 then
      some (String.mk (stripWs (cellStr ((g.getD r []).getD (c - 1) Cell.empty))))
    else none
  dateNormRow (holdingsCols g r)
    (Cell.str portfolio :: optCell assetType :: optCell assetName :: row)

/-- One holdings subtable from the anchor at `(r, c)` with body up to
(excluding) row `nextR`; `none` when no data row survives. -/
def holdingsSub (g : Grid) (portfolio : String) (r c nextR : Nat) :
    Option Subtable :=
  let data := bodyRows g (r + 1) nextR
  if data.isEmpty then none
  else some ⟨holdingsCols g r, data.map (holdingsEnrich g portfolio r c)⟩

/-- Iterate over the anchor list, each anchor's body ending at the next
anchor's row (or the grid end). -/
def holdingsLoop (g : Grid) (portfolio : String) :
    List (Nat × Nat) → List Subtable
  | [] => []
  | (r, c) :: tl =>
    let nextR := match tl with
      | [] => g.length
      | (r2, _) :: _ => r2
    match holdingsSub g portfolio r c nextR with
    | none => holdingsLoop g portfolio tl
    | some s => s :: holdingsLoop g portfolio tl

/-- `parse_holdings_sheet`. -/
def parse_holdings_sheet (g : Grid) (portfolio : String) : List Subtable :=
  holdingsLoop g portfolio (holdingsAnchors g)

/-- Transactions anchor rows: first cell normalizes to `CARTEIRA`. -/
def txAnchors (g : Grid) : List Nat :=
  g.enum.filterMap (fun p =>
    if upperStrip (p.2.headD Cell.empty) = "CARTEIRA".data then some p.1
    else none)

/-- Details-column expansion (lines 220-223 of the source): decompose every
cell of column `detIdx`, collect the union of record keys in first-seen
order as new columns, and extend every row with the looked-up values
(absent field or Python `None` both render as an empty cell). -/
def expandDetails (cols : List String) (rows : List (List Cell))
    (detIdx : Nat) : List String × List (List Cell) :=
  let recs := rows.map (fun row => parse_details (row.getD detIdx Cell.empty))
  let keys := recs.foldl
    (fun acc r => acc ++ (r.map Prod.fst).filter (fun k => !acc.contains k))
    ([] : List String)
  (cols ++ keys,
   (rows.zip recs).map (fun pr =>
     pr.1 ++ keys.map (fun k =>
       match pr.2.lookup k with
       | some (some s) => Cell.str s
       | _ => Cell.empty)))

/-- One transactions subtable whose header is the anchor row `start` and
whose body runs up to (excluding) row `endR`. -/
def txSub (g : Grid) (portfolio : String) (start endR : Nat) :
    Option Subtable :=
  let header := g.getD start []
  let body := ((g.drop (start + 1)).take (endR - (start + 1))).filter
    (fun row => !rowAllEmpty row)
  if body.isEmpty then none
  else
    let cols := (dedup_columns (header.map headerName)).take header.length
    let expanded := match cols.findIdx? (fun c =>
        upperStripName c = "DETALHES".data ∨ upperStripName c = "DETAILS".data) with
      | some j => expandDetails cols body j
      | none => (cols, body)
    let rows3 := expanded.2.map (dateNormRow expanded.1)
    some ⟨"Portfolio" :: expanded.1, rows3.map (fun row => Cell.str portfolio :: row)⟩

/-- Iterate over the transaction anchors. -/
def txLoop (g : Grid) (portfolio : String) : List Nat → List Subtable
  | [] => []
  | s :: tl =>
    let e := match tl with
      | [] => g.length
      | s2 :: _ => s2
    match txSub g portfolio s e with
    | none => txLoop g portfolio tl
    | some t => t :: txLoop g portfolio tl

/-- `parse_transactions_sheet`. -/
def parse_transactions_sheet (g : Grid) (portfolio : String) : List Subtable :=
  txLoop g portfolio (txAnchors g)

/-- The end of the span of whichever quantity alternative fired, recomputed
directly from the three quantity searches (slash pair, labelled pair,
standalone fallback) in the priority order the spec gives, with the same
tie-breaking the source applies (the labelled ends combine by maximum; a
firing standalone fallback overrides). -/
def specQtyEnd (tipo rest : List Char) : Nat :=
  match reSearch trySlashQty rest with
  | some (i, len, _, _) => i + len
  | none =>
    let e1 : Nat := match reSearch (tryQtyPt '1') rest with
      | some (i, len, _) => i + len
      | none => 0
    let e2 : Nat := match reSearch (tryQtyPt '2') rest with
      | some (i, len, _) => max e1 (i + len)
      | none => e1
    if containsTok tipo "SECURITIES".data
        && (reSearch (tryQtyPt '1') rest).isNone then
      match reSearch tryStandalone rest with
      | some (i, len, _) => i + len
      | none => e2
    else e2

/-- The leading uppercase-and-space run of the stripped input (the group of
the type-stage regex). -/
def detTipoRun (raw : List Char) : List Char :=
  (stripWs raw).takeWhile (fun c => isUpperA c || c = ' ')

/-- The `tipo` value of the type stage. -/
def detTipo (raw : List Char) : Option (List Char) :=
  if (detTipoRun raw).isEmpty then none else some (stripWs (detTipoRun raw))

/-- The remainder handed by the type stage to the advice stage. -/
def detRest0 (raw : List Char) : List Char :=
  if (detTipoRun raw).isEmpty then stripWs raw
  else stripWs (((stripWs raw).drop (detTipoRun raw).length).dropWhile isSep3)

/-- The advice-stage outcome on the pipeline of `parse_detailsL`. -/
def detAdviceSt (raw : List Char) : Option (List Char) × List Char :=
  extract_advice (detRest0 raw)

/-- The record entries the advice stage contributes. -/
def advEntries (a : Option (List Char)) : List (String × Option String) :=
  match a with
  | some a => if a.isEmpty then [] else [("Det_Advice", some (String.mk a))]
  | none => []

/-- The quantity-stage outcome on the pipeline of `parse_detailsL`. -/
def detQtySt (raw : List Char) : List (String × Option String) × Nat :=
  qtyStage (match detTipo raw with | some t => t | none => []) (detAdviceSt raw).2

/-- The currency-stage outcome on the pipeline of `parse_detailsL`. -/
def detCcySt (raw : List Char) : Option (List Char) × List Char :=
  ccyStage
    (stripWs (((detAdviceSt raw).2.drop (detQtySt raw).2).dropWhile isSep3))
    (detAdviceSt raw).2

/-- The date-stage outcome on the pipeline of `parse_detailsL`. -/
def detDateSt (raw : List Char) : List (String × Option String) × List Char :=
  dateStage (detCcySt raw).2

/-- The record entries the advice-type stage contributes. -/
def advTypeEntries (raw : List Char) : List (String × Option String) :=
  match reSearch tryAdvType (stripWs raw) with
  | some (_, m) => [("Det_AdviceType", some (String.mk (stripWs m)))]
  | none => []

/-- C1 counterexample: on the input
`SECURITIES PURCHASE ADVICE#: AB123.45 1,000/500 USD 15MAI23 PETROBRAS`
the decomposer does not return the record the claim states: the leading
uppercase run also swallows `ADVICE`, so `tipo` is
`SECURITIES PURCHASE ADVICE`, no advice code is extracted (the label was
consumed by the type stage), and the residual is not `PETROBRAS`. -/
theorem c1_counterexample :
    ¬ ((parse_details (.str "SECURITIES PURCHASE ADVICE#: AB123.45 1,000/500 USD 15MAI23 PETROBRAS")).lookup "Det_Tipo"
          = some (some "SECURITIES PURCHASE")
        ∧ (parse_details (.str "SECURITIES PURCHASE ADVICE#: AB123.45 1,000/500 USD 15MAI23 PETROBRAS")).lookup "Det_Advice"
          = some (some "AB123.45")
        ∧ (parse_details (.str "SECURITIES PURCHASE ADVICE#: AB123.45 1,000/500 USD 15MAI23 PETROBRAS")).lookup "Det_Qty1"
          = some (some "1000")
        ∧ (parse_details (.str "SECURITIES PURCHASE ADVICE#: AB123.45 1,000/500 USD 15MAI23 PETROBRAS")).lookup "Det_Qty2"
          = some (some "500")
        ∧ (parse_details (.str "SECURITIES PURCHASE ADVICE#: AB123.45 1,000/500 USD 15MAI23 PETROBRAS")).lookup "Det_Ccy"
          = some (some "USD")
        ∧ (parse_details (.str "SECURITIES PURCHASE ADVICE#: AB123.45 1,000/500 USD 15MAI23 PETROBRAS")).lookup "Det_Date"
          = some (some "15/05/2023")
        ∧ (parse_details (.str "SECURITIES PURCHASE ADVICE#: AB123.45 1,000/500 USD 15MAI23 PETROBRAS")).lookup "Det_AssetName"
          = some (some "PETROBRAS")) := by
  decide

/-- C1 amended: the record actually produced for the claim's input: the type
is `SECURITIES PURCHASE ADVICE` (the leading uppercase-and-space run), the
advice code is absent, the quantities are `1000` and `500`, the currency is
`USD`, the date is `15/05/2023`, the advice-type label is
`SECURITIES PURCHASE ADVICE`, and the residual name is `USD  PETROBRAS`
(the text before the quantity match, including `AB123.45`, is dropped and
`USD` is not end-positioned, so it is not stripped). -/
theorem c1_amended :
    parse_details (.str "SECURITIES PURCHASE ADVICE#: AB123.45 1,000/500 USD 15MAI23 PETROBRAS") =
      [("Det_Tipo", some "SECURITIES PURCHASE ADVICE"),
       ("Det_Qty1", some "1000"), ("Det_Qty2", some "500"),
       ("Det_Ccy", some "USD"), ("Det_Date", some "15/05/2023"),
       ("Det_AdviceType", some "SECURITIES PURCHASE ADVICE"),
       ("Det_AssetName", some "USD  PETROBRAS")] := by
  decide

/-- C2 counterexample: on `SECURITIES SALE 250 EUR VALE` the residual name
is not `VALE`: the currency `EUR` does not sit at the end of the remainder,
so it is recorded but not stripped, leaving `EUR VALE`. -/
theorem c2_counterexample :
    ¬ ((parse_details (.str "SECURITIES SALE 250 EUR VALE")).lookup "Det_Tipo"
          = some (some "SECURITIES SALE")
        ∧ (parse_details (.str "SECURITIES SALE 250 EUR VALE")).lookup "Det_Qty1"
          = some (some "250")
        ∧ (parse_details (.str "SECURITIES SALE 250 EUR VALE")).lookup "Det_Ccy"
          = some (some "EUR")
        ∧ (parse_details (.str "SECURITIES SALE 250 EUR VALE")).lookup "Det_AssetName"
          = some (some "VALE")) := by
  decide

/-- C2 amended: the record actually produced for `SECURITIES SALE 250 EUR
VALE`: type `SECURITIES SALE`, quantity `250` via the standalone-number
fallback (the type contains `SECURITIES`), currency `EUR`, and residual name
`EUR VALE` (the currency token is not end-positioned, so it stays in the
remainder). -/
theorem c2_amended :
    parse_details (.str "SECURITIES SALE 250 EUR VALE") =
      [("Det_Tipo", some "SECURITIES SALE"), ("Det_Qty1", some "250"),
       ("Det_Ccy", some "EUR"), ("Det_AssetName", some "EUR VALE")] := by
  decide

theorem dedupGo_spec : ∀ (cs : List String) (seen : String → Nat),
    dedupGo seen cs = (List.range cs.length).map (fun i =>
      let n := dedupName (cs.getD i "")
      let k := seen n + ((cs.take i).map dedupName).count n
      if k = 0 then n else n ++ "_" ++ toString k)
  | [], _ => rfl
  | c :: cs, seen => by
    simp only [dedupGo, List.length_cons, List.range_succ_eq_map,
      List.map_cons, List.map_map]
    refine congrArg₂ List.cons ?_ ?_
    · simp [dedupName]
    · rw [show (fun x => if x = if c = "" then "_" else c
            then seen (if c = "" then "_" else c) + 1 else seen x)
          = (fun x => if x = dedupName c then seen (dedupName c) + 1 else seen x)
          from rfl]
      rw [dedupGo_spec cs]
      apply List.map_congr_left
      intro i _
      simp only [Function.comp, List.getD_cons_succ, List.take_succ_cons,
        List.map_cons, List.count_cons]
      by_cases h : dedupName c = dedupName (cs.getD i "")
      · rw [h, if_pos rfl]
        have e : seen (dedupName (cs.getD i "")) + 1 +
            List.count (dedupName (cs.getD i "")) (List.map dedupName (List.take i cs)) =
            seen (dedupName (cs.getD i "")) +
            (List.count (dedupName (cs.getD i "")) (List.map dedupName (List.take i cs)) +
              if (dedupName (cs.getD i "") == dedupName (cs.getD i "")) = true then 1 else 0) := by
          simp only [beq_self_eq_true, if_true]
          omega
        rw [e]
      · have hbeq : (dedupName c == dedupName (cs.getD i "")) = false := by
          simpa using h
        rw [if_neg (show ¬ dedupName (cs.getD i "") = dedupName c from
          fun hc => h hc.symm), hbeq]
        simp

/-- C4 counterexample: deduplication does not guarantee a duplicate-free
output: on `[A, A, A_1]` the second `A` is renamed to `A_1`, which collides
with the third input name (whose own count is zero, so it stays `A_1`). -/
theorem c4_counterexample :
    dedup_columns ["A", "A", "A_1"] = ["A", "A_1", "A_1"] ∧
      ¬ (dedup_columns ["A", "A", "A_1"]).Nodup := by
  decide

/-- C4 amended: for every list of column names, `_dedup_columns` returns a
list of the same length and order in which every empty name is replaced by
the placeholder underscore, the first occurrence of any name is unchanged,
and the k-th repeat receives the suffix underscore-k (the positional
characterization `dedupSpec`); the output may still contain duplicates when
an input name collides with a suffixed rename. -/
theorem c4_amended (cols : List String) :
    dedup_columns cols = dedupSpec cols
      ∧ (dedup_columns cols).length = cols.length := by
  have h := dedupGo_spec cols (fun _ => 0)
  constructor
  · rw [dedup_columns, h, dedupSpec]
    simp
  · rw [dedup_columns, h]
    simp

/-- C5: `normalize_date` passes every non-string cell through unchanged, and
whenever the transformed string (after month substitution and possible
compact expansion) fails the day-first parse, the exact original string is
returned, never a partially transformed one. -/
theorem c5_normalize_fallback :
    (∀ c : Cell, (∀ s, c ≠ Cell.str s) → normalize_date c = c)
      ∧ ∀ l : List Char, dtparse (preDate l) = none → normStr l = l := by
  constructor
  · intro c h
    cases c with
    | str s => exact absurd rfl (h s)
    | num n => rfl
    | empty => rfl
  · intro l h
    rw [normStr, h]

/-- Witness for C5 at concrete inputs: a numeric cell passes through and the
non-date string `NOT A DATE` comes back untouched. -/
theorem c5_witness :
    normalize_date (Cell.num 7) = Cell.num 7
      ∧ normStr "NOT A DATE".data = "NOT A DATE".data :=
  ⟨c5_normalize_fallback.1 (Cell.num 7) (fun _ h => Cell.noConfusion h),
   c5_normalize_fallback.2 "NOT A DATE".data (by decide)⟩

theorem digit_chars_spec : ∀ c ∈ "0123456789".data, isDigitA c = true
    ∧ isWsC c = false ∧ Char.toUpper c = c ∧ isUpperA c = false ∧ c ≠ '/' := by
  decide

theorem digitChr_mem : ∀ k : Nat, digitChr k ∈ "0123456789".data := by
  intro k
  rcases k with _|_|_|_|_|_|_|_|_|_|k
  · exact (by decide : ('0' : Char) ∈ "0123456789".data)
  · exact (by decide : ('1' : Char) ∈ "0123456789".data)
  · exact (by decide : ('2' : Char) ∈ "0123456789".data)
  · exact (by decide : ('3' : Char) ∈ "0123456789".data)
  · exact (by decide : ('4' : Char) ∈ "0123456789".data)
  · exact (by decide : ('5' : Char) ∈ "0123456789".data)
  · exact (by decide : ('6' : Char) ∈ "0123456789".data)
  · exact (by decide : ('7' : Char) ∈ "0123456789".data)
  · exact (by decide : ('8' : Char) ∈ "0123456789".data)
  · exact (by decide : ('9' : Char) ∈ "0123456789".data)
  · exact (by decide : ('9' : Char) ∈ "0123456789".data)

theorem digitChr_spec (k : Nat) : isDigitA (digitChr k) = true
    ∧ isWsC (digitChr k) = false ∧ Char.toUpper (digitChr k) = digitChr k
    ∧ isUpperA (digitChr k) = false ∧ digitChr k ≠ '/' :=
  digit_chars_spec (digitChr k) (digitChr_mem k)

theorem digitVal_digitChr (k : Nat) (h : k ≤ 9) : digitVal (digitChr k) = some k := by
  interval_cases k <;> decide

theorem digitVal_le (c : Char) (v : Nat) (h : digitVal c = some v) : v ≤ 9 := by
  unfold digitVal at h
  split_ifs at h <;> cases h <;> omega

theorem dropWhile_eq_self_of {p : Char → Bool} :
    ∀ {l : List Char}, (∀ c ∈ l, p c = false) → l.dropWhile p = l
  | [], _ => rfl
  | c :: cs, h => by
    rw [List.dropWhile_cons, h c (List.mem_cons_self c cs)]
    simp

theorem takeWhile_eq_self_of {p : Char → Bool} :
    ∀ {l : List Char}, (∀ c ∈ l, p c = true) → l.takeWhile p = l
  | [], _ => rfl
  | c :: cs, h => by
    rw [List.takeWhile_cons, h c (List.mem_cons_self c cs)]
    simp only [if_true]
    rw [takeWhile_eq_self_of (fun x hx => h x (List.mem_cons_of_mem c hx))]

theorem dropWhile_eq_nil_of {p : Char → Bool} :
    ∀ {l : List Char}, (∀ c ∈ l, p c = true) → l.dropWhile p = []
  | [], _ => rfl
  | c :: cs, h => by
    rw [List.dropWhile_cons, h c (List.mem_cons_self c cs)]
    simp only [if_true]
    exact dropWhile_eq_nil_of (fun x hx => h x (List.mem_cons_of_mem c hx))

theorem rdropWhile_eq_self_of {p : Char → Bool} {l : List Char}
    (h : ∀ c ∈ l, p c = false) : rdropWhile p l = l := by
  rw [rdropWhile, dropWhile_eq_self_of (fun c hc => h c (List.mem_reverse.mp hc)),
    List.reverse_reverse]

theorem stripWs_eq_self_of {l : List Char} (h : ∀ c ∈ l, isWsC c = false) :
    stripWs l = l := by
  rw [stripWs, dropWhile_eq_self_of h, rdropWhile_eq_self_of h]

theorem map_eq_self_of {f : Char → Char} :
    ∀ {l : List Char}, (∀ c ∈ l, f c = c) → l.map f = l
  | [], _ => rfl
  | c :: cs, h => by
    rw [List.map_cons, h c (List.mem_cons_self c cs),
      map_eq_self_of (fun x hx => h x (List.mem_cons_of_mem c hx))]

theorem isPrefixOf_append : ∀ (l₁ l₂ : List Char), l₁.isPrefixOf l₂ = true →
    l₁ ++ l₂.drop l₁.length = l₂
  | [], l₂, _ => rfl
  | a :: as, [], h => by simp [List.isPrefixOf] at h
  | a :: as, b :: bs, h => by
    simp only [List.isPrefixOf, Bool.and_eq_true_iff, beq_iff_eq] at h
    obtain ⟨rfl, h2⟩ := h
    simp only [List.length_cons, List.drop_succ_cons, List.cons_append,
      List.cons.injEq, true_and]
    exact isPrefixOf_append as bs h2

theorem replaceGo_self (pat : List Char) :
    ∀ (fuel : Nat) (l : List Char), l.length ≤ fuel →
      replaceGo pat pat fuel l = l
  | 0, l, h => rfl
  | fuel + 1, [], _ => rfl
  | fuel + 1, c :: cs, h => by
    rw [replaceGo]
    by_cases hp : (!pat.isEmpty && pat.isPrefixOf (c :: cs)) = true
    · rw [if_pos hp]
      have hne : pat ≠ [] := by
        intro he
        rw [he] at hp
        simp at hp
      have hpre : pat.isPrefixOf (c :: cs) = true := by
        exact (Bool.and_eq_true_iff.mp hp).2
      have hdrop : cs.drop (pat.length - 1) = (c :: cs).drop pat.length := by
        cases hq : pat with
        | nil => exact absurd hq hne
        | cons p ps => simp [List.drop]
      have hplen : 1 ≤ pat.length := by
        cases hq : pat with
        | nil => exact absurd hq hne
        | cons p ps => simp
      have hlen : ((c :: cs).drop pat.length).length ≤ fuel := by
        simp only [List.length_drop, List.length_cons] at h ⊢
        omega
      rw [hdrop, replaceGo_self pat fuel _ hlen]
      exact isPrefixOf_append pat (c :: cs) hpre
    · rw [if_neg hp]
      have : cs.length ≤ fuel := by
        simp only [List.length_cons] at h
        omega
      rw [replaceGo_self pat fuel cs this]

theorem replaceGo_not_head (pat rep : List Char) :
    ∀ (fuel : Nat) (l : List Char),
      (∀ c ∈ l, pat.head? ≠ some c) → replaceGo pat rep fuel l = l
  | 0, l, _ => rfl
  | fuel + 1, [], _ => rfl
  | fuel + 1, c :: cs, h => by
    rw [replaceGo]
    have hp : (!pat.isEmpty && pat.isPrefixOf (c :: cs)) = false := by
      cases hq : pat with
      | nil => simp
      | cons p ps =>
        have : p ≠ c := by
          intro he
          exact h c (List.mem_cons_self c cs) (by rw [hq, he]; rfl)
        simp [List.isPrefixOf, this]
    rw [if_neg (by simp [hp])]
    rw [replaceGo_not_head pat rep fuel cs
      (fun x hx => h x (List.mem_cons_of_mem c hx))]

theorem wsTokensGo_nil : ∀ fuel, wsTokensGo fuel [] = []
  | 0 => rfl
  | _ + 1 => rfl

theorem wsTokensGo_single : ∀ (fuel : Nat) (l : List Char), l.length ≤ fuel →
    l ≠ [] → (∀ c ∈ l, isWsC c = false) → wsTokensGo fuel l = [l]
  | 0, l, h, hne, _ => by
    interval_cases hl : l.length
    · exact absurd (List.length_eq_zero.mp hl) hne
  | fuel + 1, [], _, hne, _ => absurd rfl hne
  | fuel + 1, c :: cs, h, _, hchar => by
    rw [wsTokensGo]
    simp only [hchar c (List.mem_cons_self c cs), if_false, Bool.false_eq_true]
    rw [takeWhile_eq_self_of (fun x hx => by
        rw [hchar x (List.mem_cons_of_mem c hx)]; rfl),
      dropWhile_eq_nil_of (fun x hx => by
        rw [hchar x (List.mem_cons_of_mem c hx)]; rfl),
      wsTokensGo_nil]

theorem wsTokens_single (l : List Char) (hne : l ≠ [])
    (hchar : ∀ c ∈ l, isWsC c = false) : wsTokens l = [l] :=
  wsTokensGo_single l.length l (Nat.le_refl _) hne hchar

theorem splitOnC_no_sep (sep : Char) :
    ∀ l : List Char, (∀ c ∈ l, c ≠ sep) → splitOnC sep l = [l]
  | [], _ => rfl
  | c :: cs, h => by
    rw [splitOnC, if_neg (h c (List.mem_cons_self c cs)),
      splitOnC_no_sep sep cs (fun x hx => h x (List.mem_cons_of_mem c hx))]

theorem splitOnC_append (sep : Char) :
    ∀ (a rest : List Char), (∀ c ∈ a, c ≠ sep) →
      splitOnC sep (a ++ sep :: rest) = a :: splitOnC sep rest
  | [], rest, _ => by rw [List.nil_append, splitOnC, if_pos rfl]
  | c :: a', rest, h => by
    rw [List.cons_append, splitOnC, if_neg (h c (List.mem_cons_self c a')),
      splitOnC_append sep a' rest (fun x hx => h x (List.mem_cons_of_mem c hx))]

theorem parseDigitsGo_lt : ∀ (l : List Char) (acc n : Nat),
    parseDigitsGo acc l = some n → n < (acc + 1) * 10 ^ l.length
  | [], acc, n, h => by
    cases h
    simp
  | c :: cs, acc, n, h => by
    rw [parseDigitsGo] at h
    cases hv : digitVal c with
    | none => rw [hv] at h; cases h
    | some v =>
      rw [hv] at h
      have hlt := parseDigitsGo_lt cs (acc * 10 + v) n h
      have hv9 := digitVal_le c v hv
      have hstep : (acc * 10 + v + 1) * 10 ^ cs.length
          ≤ (acc + 1) * 10 ^ (c :: cs).length := by
        simp only [List.length_cons, pow_succ]
        calc (acc * 10 + v + 1) * 10 ^ cs.length
            ≤ ((acc + 1) * 10) * 10 ^ cs.length := by
              apply Nat.mul_le_mul_right
              omega
          _ = (acc + 1) * (10 ^ cs.length * 10) := by ring
      omega

theorem parseNat2_le {t : List Char} {n : Nat} (h : parseNat2 t = some n) :
    n ≤ 99 := by
  rw [parseNat2] at h
  split at h
  · rename_i hlen
    rw [parseDigits] at h
    split at h
    · cases h
    · have hlt := parseDigitsGo_lt t 0 n h
      rcases Bool.or_eq_true_iff.mp hlen with h1 | h2
      · rw [of_decide_eq_true h1] at hlt
        norm_num at hlt
        omega
      · rw [of_decide_eq_true h2] at hlt
        norm_num at hlt
        omega
  · cases h

theorem parseNat4_le {t : List Char} {n : Nat} (h : parseNat4 t = some n) :
    n ≤ 9999 := by
  rw [parseNat4] at h
  split at h
  · rename_i hlen
    rw [parseDigits] at h
    split at h
    · cases h
    · have hlt := parseDigitsGo_lt t 0 n h
      rw [hlen] at hlt
      norm_num at hlt
      omega
  · cases h

theorem parseNat2_pad2 (d : Nat) (h : d ≤ 99) : parseNat2 (pad2 d) = some d := by
  have h1 : d / 10 ≤ 9 := by omega
  have h2 : d % 10 ≤ 9 := by omega
  simp only [parseNat2, pad2, List.length_cons, List.length_nil, parseDigits,
    List.isEmpty_cons, parseDigitsGo, digitVal_digitChr _ h1,
    digitVal_digitChr _ h2]
  norm_num
  omega

theorem parseNat4_fmt4 (y : Nat) (h : y ≤ 9999) : parseNat4 (fmt4 y) = some y := by
  have h1 : y / 1000 ≤ 9 := by omega
  have h2 : y / 100 % 10 ≤ 9 := by omega
  have h3 : y / 10 % 10 ≤ 9 := by omega
  have h4 : y % 10 ≤ 9 := by omega
  simp only [parseNat4, fmt4, List.length_cons, List.length_nil, parseDigits,
    List.isEmpty_cons, parseDigitsGo, digitVal_digitChr _ h1,
    digitVal_digitChr _ h2, digitVal_digitChr _ h3, digitVal_digitChr _ h4]
  norm_num
  omega

theorem slash_char_spec : isWsC '/' = false ∧ Char.toUpper '/' = '/'
    ∧ isUpperA '/' = false := by decide

theorem fmtDate_chars (d m y : Nat) :
    ∀ c ∈ fmtDate (d, m, y), c ∈ "0123456789".data ∨ c = '/' := by
  intro c hc
  simp only [fmtDate, pad2, fmt4, List.mem_cons, List.cons_append,
    or_false, List.nil_append, List.not_mem_nil] at hc
  rcases hc with rfl|rfl|rfl|rfl|rfl|rfl|rfl|rfl|rfl|rfl <;>
    first
      | exact Or.inl (digitChr_mem _)
      | exact Or.inr rfl

theorem fmtDate_no_ws (d m y : Nat) :
    ∀ c ∈ fmtDate (d, m, y), isWsC c = false := by
  intro c hc
  rcases fmtDate_chars d m y c hc with hd | rfl
  · exact (digit_chars_spec c hd).2.1
  · exact slash_char_spec.1

theorem fmtDate_toUpper (d m y : Nat) :
    ∀ c ∈ fmtDate (d, m, y), Char.toUpper c = c := by
  intro c hc
  rcases fmtDate_chars d m y c hc with hd | rfl
  · exact (digit_chars_spec c hd).2.2.1
  · exact slash_char_spec.2.1

theorem fmtDate_no_upper (d m y : Nat) :
    ∀ c ∈ fmtDate (d, m, y), isUpperA c = false := by
  intro c hc
  rcases fmtDate_chars d m y c hc with hd | rfl
  · exact (digit_chars_spec c hd).2.2.2.1
  · exact slash_char_spec.2.2

theorem monthSubst_id {l : List Char} (h : ∀ c ∈ l, isUpperA c = false) :
    monthSubst l = l := by
  have key : ∀ pairs : List (List Char × List Char),
      (∀ p ∈ pairs, p.1 = p.2
        ∨ ∃ hd tl, p.1 = hd :: tl ∧ isUpperA hd = true) →
      List.foldl (fun s p => replaceL p.1 p.2 s) l pairs = l := by
    intro pairs
    induction pairs with
    | nil => intro _; rfl
    | cons p ps ih =>
      intro hp
      have step : replaceL p.1 p.2 l = l := by
        rcases hp p (List.mem_cons_self p ps) with heq | ⟨hd, tl, hpat, hup⟩
        · rw [heq]
          exact replaceGo_self p.2 l.length l (Nat.le_refl _)
        · refine replaceGo_not_head p.1 p.2 l.length l ?_
          intro c hc heq2
          rw [hpat] at heq2
          simp only [List.head?] at heq2
          injection heq2 with he
          subst he
          rw [h hd hc] at hup
          exact Bool.noConfusion hup
      rw [List.foldl_cons, step]
      exact ih (fun q hq => hp q (List.mem_cons_of_mem p hq))
  refine key monthPairs ?_
  intro p hp
  simp only [monthPairs, List.mem_cons, or_false, List.not_mem_nil] at hp
  rcases hp with rfl|rfl|rfl|rfl|rfl|rfl|rfl|rfl|rfl|rfl|rfl|rfl <;>
    first
      | exact Or.inl rfl
      | exact Or.inr ⟨_, _, rfl, by decide⟩

theorem isCompactTok_fmtDate (d m y : Nat) :
    isCompactTok (fmtDate (d, m, y)) = false := rfl

theorem preDate_fmtDate (d m y : Nat) :
    preDate (fmtDate (d, m, y)) = fmtDate (d, m, y) := by
  rw [preDate, stripWs_eq_self_of (fmtDate_no_ws d m y)]
  rw [show toUpperL (fmtDate (d, m, y)) = fmtDate (d, m, y) from
    map_eq_self_of (fmtDate_toUpper d m y)]
  rw [monthSubst_id (fmtDate_no_upper d m y), isCompactTok_fmtDate]
  simp

theorem pad2_no_slash (n : Nat) : ∀ c ∈ pad2 n, c ≠ '/' := by
  intro c hc
  simp only [pad2, List.mem_cons, List.not_mem_nil, or_false] at hc
  rcases hc with rfl | rfl <;>
    exact (digit_chars_spec _ (digitChr_mem _)).2.2.2.2

theorem fmt4_no_slash (n : Nat) : ∀ c ∈ fmt4 n, c ≠ '/' := by
  intro c hc
  simp only [fmt4, List.mem_cons, List.not_mem_nil, or_false] at hc
  rcases hc with rfl | rfl | rfl | rfl <;>
    exact (digit_chars_spec _ (digitChr_mem _)).2.2.2.2

theorem splitOnC_fmtDate (d m y : Nat) :
    splitOnC '/' (fmtDate (d, m, y)) = [pad2 d, pad2 m, fmt4 y] := by
  rw [fmtDate,
    splitOnC_append '/' (pad2 d) (pad2 m ++ ('/' :: fmt4 y)) (pad2_no_slash d),
    splitOnC_append '/' (pad2 m) (fmt4 y) (pad2_no_slash m),
    splitOnC_no_sep '/' (fmt4 y) (fmt4_no_slash y)]

theorem fmtDate_ne_nil (d m y : Nat) : fmtDate (d, m, y) ≠ [] := by
  simp [fmtDate, pad2]

theorem slash_mem_fmtDate (d m y : Nat) : '/' ∈ fmtDate (d, m, y) := by
  simp [fmtDate, pad2]

theorem dtparse_fmtDate (d m y : Nat) (hv : validDMY d m y = true)
    (hd : d ≤ 99) (hm : m ≤ 99) (hy : y ≤ 9999) :
    dtparse (fmtDate (d, m, y)) = some (d, m, y) := by
  rw [dtparse, wsTokens_single _ (fmtDate_ne_nil d m y) (fmtDate_no_ws d m y)]
  simp only [slash_mem_fmtDate d m y, if_true, splitOnC_fmtDate,
    parseNat2_pad2 d hd, parseNat2_pad2 m hm, parseNat4_fmt4 y hy,
    Option.bind_some, Option.some_bind, hv, bind, decide_True]
  rfl

theorem dtparse_sound (l : List Char) (d m y : Nat)
    (h : dtparse l = some (d, m, y)) :
    validDMY d m y = true ∧ y ≤ 9999 := by
  rw [dtparse] at h
  split at h
  · split at h
    · split at h
      · rename_i dT mT yT
        simp only [bind, Option.bind_eq_some] at h
        obtain ⟨d0, hd0, h⟩ := h
        obtain ⟨m0, hm0, h⟩ := h
        obtain ⟨y0, hy0, h⟩ := h
        split at h
        · rename_i hv
          cases h
          exact ⟨hv, parseNat4_le hy0⟩
        · cases h
      · cases h
    · cases h
  · rename_i dT mT yT
    simp only [bind, Option.bind_eq_some] at h
    obtain ⟨d0, hd0, h⟩ := h
    obtain ⟨m0, hm0, h⟩ := h
    obtain ⟨y0, hy0, h⟩ := h
    split at h
    · rename_i hv
      cases h
      exact ⟨hv, parseNat4_le hy0⟩
    · cases h
  · cases h

theorem daysInMonth_le_31 (m y : Nat) : daysInMonth m y ≤ 31 := by
  rw [daysInMonth]
  split_ifs <;> omega

theorem validDMY_bounds {d m y : Nat} (h : validDMY d m y = true) :
    d ≤ 99 ∧ m ≤ 99 := by
  simp only [validDMY, Bool.and_eq_true_iff, decide_eq_true_iff] at h
  have := daysInMonth_le_31 m y
  omega

/-- C6: `normalize_date` is idempotent on date-shaped strings, where
date-shaped means the transformed string is accepted by the day-first
parser: the rendered `DD/MM/YYYY` output is untouched by stripping,
uppercasing, month substitution and compact-token expansion, and parses
back to the same date. -/
theorem c6_idempotent (l : List Char) (h : (dtparse (preDate l)).isSome) :
    normStr (normStr l) = normStr l := by
  obtain ⟨⟨d, m, y⟩, ht⟩ := Option.isSome_iff_exists.mp h
  obtain ⟨hv, hy⟩ := dtparse_sound _ d m y ht
  obtain ⟨hd, hm⟩ := validDMY_bounds hv
  have h1 : normStr l = fmtDate (d, m, y) := by rw [normStr, ht]
  rw [h1, normStr, preDate_fmtDate, dtparse_fmtDate d m y hv hd hm hy]

/-- Witness for C6: the compact token `15MAI23` is date-shaped and its
normalization `15/05/2023` is a fixed point of `normStr`. -/
theorem c6_witness :
    normStr (normStr "15MAI23".data) = normStr "15MAI23".data :=
  c6_idempotent "15MAI23".data (by decide)

/-- C3 counterexample: in `AAA foo 1/2 bar` the slash alternative matches
the span `1/2` at positions 4-7 of the remainder `foo 1/2 bar`, yet the
remainder handed to the later stages is `bar`: the text `foo`, which occurs
before the matched span, is not preserved (and consequently the residual
name is `bar`). -/
theorem c3_counterexample :
    qtyRemaining "AAA".data "foo 1/2 bar".data = "bar".data
      ∧ reSearch trySlashQty "foo 1/2 bar".data
          = some (4, 3, "1".data, "2".data)
      ∧ containsTok "bar".data "foo".data = false
      ∧ (parse_details (.str "AAA foo 1/2 bar")).lookup "Det_AssetName"
          = some (some "bar") := by
  decide

/-- C3 amended: the quantity stage removes the matched span together with
everything before it: the remainder handed to the currency, date and
residual stages is exactly the suffix of the pre-quantity remainder that
follows the end of the fired alternative's span (leading separators and
surrounding whitespace trimmed); text after the span is preserved, text
before it is not. -/
theorem c3_amended (tipo rest : List Char) :
    (qtyStage tipo rest).2 = specQtyEnd tipo rest
      ∧ qtyRemaining tipo rest
        = stripWs ((rest.drop (specQtyEnd tipo rest)).dropWhile isSep3) := by
  have h : (qtyStage tipo rest).2 = specQtyEnd tipo rest := by
    rw [qtyStage, specQtyEnd]
    rcases reSearch trySlashQty rest with _ | ⟨i, len, g1, g2⟩
    · simp only
      rcases h1 : reSearch (tryQtyPt '1') rest with _ | ⟨i1, len1, c1⟩ <;>
        rcases h2 : reSearch (tryQtyPt '2') rest with _ | ⟨i2, len2, c2⟩ <;>
          simp only [h1, h2, Option.isNone_none, Option.isNone_some] <;>
            (split <;>
              first
                | rfl
                | (rcases reSearch tryStandalone rest with _ | ⟨i3, len3, c3⟩ <;> rfl))
    · rfl
  exact ⟨h, by rw [qtyRemaining, h]⟩

theorem findSome?_range_min {α β : Type} (d : α) (f : α → Option β) :
    ∀ (n : Nat) (l : List α),
      (List.range (min n l.length)).findSome? (fun i => f (l.getD i d))
        = (l.take n).findSome? f
  | n, [] => by simp
  | 0, x :: xs => by simp
  | n + 1, x :: xs => by
    have hmin : min (n + 1) (x :: xs).length = (min n xs.length) + 1 := by
      simp only [List.length_cons]
      omega
    rw [hmin, List.range_succ_eq_map, List.take_succ_cons,
      List.findSome?_cons, List.findSome?_cons]
    simp only [List.getD_cons_zero]
    cases f x with
    | some b => rfl
    | none =>
      simp only
      rw [List.findSome?_map]
      have : ((fun i => f ((x :: xs).getD i d)) ∘ Nat.succ)
          = (fun i => f (xs.getD i d)) := by
        funext i
        simp
      rw [this, findSome?_range_min d f n xs]

/-- C7: the portfolio scanner inspects only rows 0-14 of the grid, scanning
row-major and cell-major within a row (empty cells skipped, as `dropna`),
and returns the digit capture of the first cell matching the `CONTA`
pattern; when no cell of that fifteen-row window matches, it returns
`none`. -/
theorem c7_portfolio_scan (g : Grid) :
    extract_portfolio_id g
      = (g.take 15).findSome? (fun row =>
          (row.filter (fun c => c ≠ Cell.empty)).findSome? (fun v =>
            (reSearch tryConta (cellStr v)).map (fun p => String.mk p.2)))
    ∧ ((∀ row ∈ g.take 15, ∀ v ∈ row, reSearch tryConta (cellStr v) = none) →
        extract_portfolio_id g = none) := by
  have h1 : extract_portfolio_id g
      = (g.take 15).findSome? (fun row =>
          (row.filter (fun c => c ≠ Cell.empty)).findSome? (fun v =>
            (reSearch tryConta (cellStr v)).map (fun p => String.mk p.2))) := by
    rw [extract_portfolio_id]
    exact findSome?_range_min ([] : List Cell)
      (fun row => (row.filter (fun c => c ≠ Cell.empty)).findSome? (fun v =>
        (reSearch tryConta (cellStr v)).map (fun p => String.mk p.2))) 15 g
  refine ⟨h1, fun hnone => ?_⟩
  rw [h1]
  rw [List.findSome?_eq_none_iff]
  intro row hrow
  rw [List.findSome?_eq_none_iff]
  intro v hv
  rw [hnone row hrow v (List.mem_of_mem_filter hv)]
  rfl

/-- Witness for C7: a grid whose only matching cell (`CONTA # 9`) sits at
row 20, outside the fifteen-row window, yields `none`. -/
theorem c7_witness :
    extract_portfolio_id (List.replicate 20 ([Cell.empty] : List Cell)
        ++ [[Cell.str "CONTA # 9"]]) = none
      ∧ reSearch tryConta (cellStr (Cell.str "CONTA # 9"))
          = some (0, "9".data) :=
  ⟨(c7_portfolio_scan _).2 (by decide), by decide⟩

theorem zip_map_self {α β γ : Type} (f : α → β) (g : α × β → γ) :
    ∀ l : List α, (l.zip (l.map f)).map g = l.map (fun a => g (a, f a))
  | [] => rfl
  | x :: xs => by
    simp only [List.map_cons, List.zip_cons_cons, zip_map_self f g xs]

theorem takeAppendSelf {α : Type} : ∀ (a b : List α), (a ++ b).take a.length = a
  | [], _ => rfl
  | x :: xs, b => by
    simp only [List.cons_append, List.length_cons, List.take_succ_cons,
      takeAppendSelf xs b]

theorem dropAppendSelf {α : Type} : ∀ (a b : List α), (a ++ b).drop a.length = b
  | [], _ => rfl
  | x :: xs, b => by
    simp only [List.cons_append, List.length_cons, List.drop_succ_cons,
      dropAppendSelf xs b]

/-- C9: expanding the details column never drops a row (the expanded body
has the same number of rows), leaves the pre-existing columns unchanged
(every expanded row begins with the original row, and the expanded header
begins with the original header), and a row whose details cell decomposes to
the empty record receives only absent (empty) appended cells. -/
theorem c9_expand_frame (cols : List String) (rows : List (List Cell))
    (detIdx : Nat) :
    (expandDetails cols rows detIdx).2.length = rows.length
    ∧ (expandDetails cols rows detIdx).1.take cols.length = cols
    ∧ (∀ i : Nat, ((expandDetails cols rows detIdx).2.getD i []).take
          ((rows.getD i []).length) = rows.getD i [])
    ∧ ∀ i : Nat, i < rows.length →
        parse_details ((rows.getD i []).getD detIdx Cell.empty) = [] →
        ∀ c ∈ ((expandDetails cols rows detIdx).2.getD i []).drop
            ((rows.getD i []).length), c = Cell.empty := by
  have hrows : (expandDetails cols rows detIdx).2
      = rows.map (fun row => row ++
          ((rows.map (fun row => parse_details (row.getD detIdx Cell.empty))).foldl
            (fun acc r => acc ++ (r.map Prod.fst).filter (fun k => !acc.contains k))
            ([] : List String)).map (fun k =>
              match (parse_details (row.getD detIdx Cell.empty)).lookup k with
              | some (some s) => Cell.str s
              | _ => Cell.empty)) := by
    rw [expandDetails]
    exact zip_map_self _ _ rows
  refine ⟨?_, ?_, ?_, ?_⟩
  · rw [hrows, List.length_map]
  · rw [expandDetails]
    exact takeAppendSelf cols _
  · intro i
    simp only [hrows, List.getD_eq_getElem?_getD, List.getElem?_map]
    cases hrow : rows[i]? with
    | none => rfl
    | some row =>
      simp only [Option.map_some, Option.map_some', Option.getD_some]
      exact takeAppendSelf row _
  · intro i hi hrec c hc
    simp only [hrows, List.getD_eq_getElem?_getD, List.getElem?_map] at hc
    simp only [List.getD_eq_getElem?_getD] at hrec
    cases hrow : rows[i]? with
    | none =>
      rw [hrow] at hc
      simp at hc
    | some row =>
      rw [hrow] at hc hrec
      simp only [Option.map_some, Option.map_some', Option.getD_some] at hc hrec
      rw [dropAppendSelf row _] at hc
      obtain ⟨k, _, hk⟩ := List.mem_map.mp hc
      rw [hrec] at hk
      simp only [List.lookup_nil] at hk
      exact hk.symm

/-- Witness for C9 on a two-row body: the second row's details cell is
numeric, so it decomposes to the empty record, yet the row survives with its
original cells intact and only empty appended cells. -/
theorem c9_witness :
    (expandDetails ["A", "B"]
        [[Cell.str "d", Cell.str "ABC 1/2"], [Cell.str "e", Cell.num 5]]
        1).2.length = 2
    ∧ ((expandDetails ["A", "B"]
        [[Cell.str "d", Cell.str "ABC 1/2"], [Cell.str "e", Cell.num 5]]
        1).2.getD 1 []).take 2 = [Cell.str "e", Cell.num 5]
    ∧ ∀ c ∈ ((expandDetails ["A", "B"]
        [[Cell.str "d", Cell.str "ABC 1/2"], [Cell.str "e", Cell.num 5]]
        1).2.getD 1 []).drop 2, c = Cell.empty :=
  ⟨(c9_expand_frame ["A", "B"]
      [[Cell.str "d", Cell.str "ABC 1/2"], [Cell.str "e", Cell.num 5]] 1).1,
   (c9_expand_frame ["A", "B"]
      [[Cell.str "d", Cell.str "ABC 1/2"], [Cell.str "e", Cell.num 5]] 1).2.2.1 1,
   (c9_expand_frame ["A", "B"]
      [[Cell.str "d", Cell.str "ABC 1/2"], [Cell.str "e", Cell.num 5]] 1).2.2.2 1
     (by decide) (by decide)⟩

/-- The record of `parse_detailsL` decomposed into its stage-contributed
segments (definitional). -/
theorem parse_detailsL_decomp (raw : List Char) :
    parse_detailsL raw =
      ("Det_Tipo", (detTipo raw).map String.mk) ::
        (advEntries (detAdviceSt raw).1 ++ ((detQtySt raw).1 ++
          (("Det_Ccy", (detCcySt raw).1.map String.mk) ::
            ((detDateSt raw).1 ++ (advTypeEntries raw ++
              [("Det_AssetName",
                if (detDateSt raw).2.isEmpty then none
                else some (String.mk (detDateSt raw).2))]))))) := rfl

theorem lookup_cons_self {β : Type} (k : String) (v : β)
    (rest : List (String × β)) : ((k, v) :: rest).lookup k = some v := by
  simp [List.lookup]

theorem lookup_cons_ne {β : Type} {k k' : String} (h : k ≠ k') (v : β)
    (rest : List (String × β)) : ((k', v) :: rest).lookup k = rest.lookup k := by
  simp [List.lookup, beq_eq_false_iff_ne.mpr h]

theorem lookup_append_ne {β : Type} {k : String} :
    ∀ (a b : List (String × β)), (∀ p ∈ a, p.1 ≠ k) →
      (a ++ b).lookup k = b.lookup k
  | [], _, _ => rfl
  | (k', v) :: a', b, h => by
    rw [List.cons_append,
      lookup_cons_ne (fun he => h (k', v) (List.mem_cons_self _ _) he.symm) v,
      lookup_append_ne a' b (fun p hp => h p (List.mem_cons_of_mem _ hp))]

theorem advEntries_keys (a : Option (List Char)) :
    ∀ p ∈ advEntries a, p.1 = "Det_Advice" := by
  intro p hp
  rcases a with _ | x
  · simp [advEntries] at hp
  · rw [advEntries] at hp
    split at hp
    · simp at hp
    · simp only [List.mem_cons, List.not_mem_nil, or_false] at hp
      rw [hp]

theorem qtyStage_keys (tipo rest : List Char) :
    ∀ p ∈ (qtyStage tipo rest).1,
      p.1 = "Det_Qty1" ∨ p.1 = "Det_Qty2" := by
  intro p hp
  rw [qtyStage] at hp
  rcases h0 : reSearch trySlashQty rest with _ | ⟨i, len, g1, g2⟩ <;>
    rw [h0] at hp
  · rcases h1 : reSearch (tryQtyPt '1') rest with _ | ⟨i1, len1, c1⟩ <;>
      rcases h2 : reSearch (tryQtyPt '2') rest with _ | ⟨i2, len2, c2⟩ <;>
        rcases h3 : reSearch tryStandalone rest with _ | ⟨i3, len3, c3⟩ <;>
          simp only [h1, h2, h3] at hp <;>
            (try split at hp) <;>
              simp only [List.nil_append, List.append_nil, List.cons_append,
                List.mem_append, List.mem_cons, List.not_mem_nil, or_false,
                false_or] at hp <;>
                (rcases hp with rfl | rfl | rfl <;>
                  first
                    | exact Or.inl rfl
                    | exact Or.inr rfl)
  · simp only [List.mem_cons, List.not_mem_nil, or_false] at hp
    rcases hp with rfl | rfl
    · exact Or.inl rfl
    · exact Or.inr rfl

theorem dateStage_keys (r : List Char) :
    ∀ p ∈ (dateStage r).1, p.1 = "Det_Date" := by
  intro p hp
  rw [dateStage] at hp
  rcases hdt : reSearch tryDateTok r with _ | ⟨i, tok⟩ <;> rw [hdt] at hp
  · simp at hp
  · simp only [List.mem_cons, List.not_mem_nil, or_false] at hp
    rw [hp]

theorem advTypeEntries_keys (raw : List Char) :
    ∀ p ∈ advTypeEntries raw, p.1 = "Det_AdviceType" := by
  intro p hp
  rw [advTypeEntries] at hp
  rcases hat : reSearch tryAdvType (stripWs raw) with _ | ⟨i, m⟩ <;>
    rw [hat] at hp
  · simp at hp
  · simp only [List.mem_cons, List.not_mem_nil, or_false] at hp
    rw [hp]

/-- C10: on every string input the record always carries the `Det_Tipo`,
`Det_Ccy` and `Det_AssetName` keys (value `none` when the stage matched
nothing), whereas the advice-code, quantity, date and advice-type keys are
omitted entirely when their stage matched nothing; non-string input yields
the empty record. -/
theorem c10_record_shape :
    (∀ c : Cell, (∀ s, c ≠ Cell.str s) → parse_details c = [])
    ∧ ∀ raw : List Char,
      ((parse_detailsL raw).lookup "Det_Tipo").isSome
      ∧ ((parse_detailsL raw).lookup "Det_Ccy").isSome
      ∧ ((parse_detailsL raw).lookup "Det_AssetName").isSome
      ∧ ((detTipoRun raw).isEmpty = true →
          (parse_detailsL raw).lookup "Det_Tipo" = some none)
      ∧ ((detCcySt raw).1 = none →
          (parse_detailsL raw).lookup "Det_Ccy" = some none)
      ∧ ((detDateSt raw).2.isEmpty = true →
          (parse_detailsL raw).lookup "Det_AssetName" = some none)
      ∧ ((detAdviceSt raw).1 = none →
          (parse_detailsL raw).lookup "Det_Advice" = none)
      ∧ ((detQtySt raw).1 = [] →
          (parse_detailsL raw).lookup "Det_Qty1" = none
          ∧ (parse_detailsL raw).lookup "Det_Qty2" = none)
      ∧ ((detDateSt raw).1 = [] →
          (parse_detailsL raw).lookup "Det_Date" = none)
      ∧ (reSearch tryAdvType (stripWs raw) = none →
          (parse_detailsL raw).lookup "Det_AdviceType" = none) := by
  constructor
  · intro c h
    cases c with
    | str s => exact absurd rfl (h s)
    | num n => rfl
    | empty => rfl
  · intro raw
    have hA : ∀ p ∈ advEntries (detAdviceSt raw).1, p.1 = "Det_Advice" :=
      advEntries_keys _
    have hQ : ∀ p ∈ (detQtySt raw).1, p.1 = "Det_Qty1" ∨ p.1 = "Det_Qty2" :=
      qtyStage_keys _ _
    have hD : ∀ p ∈ (detDateSt raw).1, p.1 = "Det_Date" :=
      dateStage_keys _
    have hT : ∀ p ∈ advTypeEntries raw, p.1 = "Det_AdviceType" :=
      advTypeEntries_keys raw
    rw [parse_detailsL_decomp raw]
    refine ⟨?_, ?_, ?_, ?_, ?_, ?_, ?_, ?_, ?_, ?_⟩
    · rw [lookup_cons_self]
      rfl
    · rw [lookup_cons_ne (by decide) _ _,
        lookup_append_ne _ _ (fun p hp => by rw [hA p hp]; decide),
        lookup_append_ne _ _ (fun p hp => by
          rcases hQ p hp with h | h <;> rw [h] <;> decide),
        lookup_cons_self]
      rfl
    · rw [lookup_cons_ne (by decide) _ _,
        lookup_append_ne _ _ (fun p hp => by rw [hA p hp]; decide),
        lookup_append_ne _ _ (fun p hp => by
          rcases hQ p hp with h | h <;> rw [h] <;> decide),
        lookup_cons_ne (by decide) _ _,
        lookup_append_ne _ _ (fun p hp => by rw [hD p hp]; decide),
        lookup_append_ne _ _ (fun p hp => by rw [hT p hp]; decide),
        lookup_cons_self]
      rfl
    · intro h
      rw [lookup_cons_self, detTipo, h]
      rfl
    · intro h
      rw [lookup_cons_ne (by decide) _ _,
        lookup_append_ne _ _ (fun p hp => by rw [hA p hp]; decide),
        lookup_append_ne _ _ (fun p hp => by
          rcases hQ p hp with h | h <;> rw [h] <;> decide),
        lookup_cons_self, h]
      rfl
    · intro h
      rw [lookup_cons_ne (by decide) _ _,
        lookup_append_ne _ _ (fun p hp => by rw [hA p hp]; decide),
        lookup_append_ne _ _ (fun p hp => by
          rcases hQ p hp with h | h <;> rw [h] <;> decide),
        lookup_cons_ne (by decide) _ _,
        lookup_append_ne _ _ (fun p hp => by rw [hD p hp]; decide),
        lookup_append_ne _ _ (fun p hp => by rw [hT p hp]; decide),
        lookup_cons_self, h]
      rfl
    · intro h
      rw [lookup_cons_ne (by decide) _ _, h]
      simp only [advEntries, List.nil_append]
      rw [lookup_append_ne _ _ (fun p hp => by
          rcases hQ p hp with h | h <;> rw [h] <;> decide),
        lookup_cons_ne (by decide) _ _,
        lookup_append_ne _ _ (fun p hp => by rw [hD p hp]; decide),
        lookup_append_ne _ _ (fun p hp => by rw [hT p hp]; decide),
        lookup_cons_ne (by decide) _ _]
      rfl
    · intro h
      constructor <;>
        (rw [lookup_cons_ne (by decide) _ _,
          lookup_append_ne _ _ (fun p hp => by rw [hA p hp]; decide), h,
          List.nil_append,
          lookup_cons_ne (by decide) _ _,
          lookup_append_ne _ _ (fun p hp => by rw [hD p hp]; decide),
          lookup_append_ne _ _ (fun p hp => by rw [hT p hp]; decide),
          lookup_cons_ne (by decide) _ _]
         rfl)
    · intro h
      rw [lookup_cons_ne (by decide) _ _,
        lookup_append_ne _ _ (fun p hp => by rw [hA p hp]; decide),
        lookup_append_ne _ _ (fun p hp => by
          rcases hQ p hp with h | h <;> rw [h] <;> decide),
        lookup_cons_ne (by decide) _ _, h, List.nil_append,
        lookup_append_ne _ _ (fun p hp => by rw [hT p hp]; decide),
        lookup_cons_ne (by decide) _ _]
      rfl
    · intro h
      rw [lookup_cons_ne (by decide) _ _,
        lookup_append_ne _ _ (fun p hp => by rw [hA p hp]; decide),
        lookup_append_ne _ _ (fun p hp => by
          rcases hQ p hp with h | h <;> rw [h] <;> decide),
        lookup_cons_ne (by decide) _ _,
        lookup_append_ne _ _ (fun p hp => by rw [hD p hp]; decide)]
      rw [show advTypeEntries raw = [] from by rw [advTypeEntries, h]]
      rw [List.nil_append, lookup_cons_ne (by decide) _ _]
      rfl

/-- Witness for C10 on the empty string: all three nullable keys are present
with value `none`, and every optional key is omitted. -/
theorem c10_witness :
    parse_details (Cell.num 3) = []
      ∧ (parse_detailsL [] |>.lookup "Det_Tipo") = some none
      ∧ (parse_detailsL [] |>.lookup "Det_Advice") = none
      ∧ (parse_detailsL [] |>.lookup "Det_Qty1") = none
      ∧ (parse_detailsL [] |>.lookup "Det_Date") = none
      ∧ (parse_detailsL [] |>.lookup "Det_AdviceType") = none :=
  ⟨c10_record_shape.1 (Cell.num 3) (fun _ h => Cell.noConfusion h),
   ((c10_record_shape.2 []).2.2.2.1 (by decide)),
   ((c10_record_shape.2 []).2.2.2.2.2.2.1 (by decide)),
   ((c10_record_shape.2 []).2.2.2.2.2.2.2.1 (by decide)).1,
   ((c10_record_shape.2 []).2.2.2.2.2.2.2.2.1 (by decide)),
   ((c10_record_shape.2 []).2.2.2.2.2.2.2.2.2 (by decide))⟩

/-- C8: a grid with exactly two holdings anchors, each followed by at least
one surviving body row, yields exactly two subtables: the first body is the
(surviving part of the) row range strictly between the two anchor rows, the
second runs from the row after the second anchor to the grid end, and no
body row of either subtable normalizes to `TOTAL` in its first cell. -/
theorem c8_two_anchors (g : Grid) (pid : String) (r1 c1 r2 c2 : Nat)
    (hanch : holdingsAnchors g = [(r1, c1), (r2, c2)])
    (h1 : bodyRows g (r1 + 1) r2 ≠ [])
    (h2 : bodyRows g (r2 + 1) g.length ≠ []) :
    ∃ s1 s2, parse_holdings_sheet g pid = [s1, s2]
      ∧ s1.rows = (bodyRows g (r1 + 1) r2).map (holdingsEnrich g pid r1 c1)
      ∧ s2.rows = (bodyRows g (r2 + 1) g.length).map (holdingsEnrich g pid r2 c2)
      ∧ ∀ row ∈ bodyRows g (r1 + 1) r2 ++ bodyRows g (r2 + 1) g.length,
          upperStrip (row.headD Cell.empty) ≠ "TOTAL".data := by
  have hne1 : (bodyRows g (r1 + 1) r2).isEmpty = false := by
    cases hl : bodyRows g (r1 + 1) r2 with
    | nil => exact absurd hl h1
    | cons x xs => rfl
  have hne2 : (bodyRows g (r2 + 1) g.length).isEmpty = false := by
    cases hl : bodyRows g (r2 + 1) g.length with
    | nil => exact absurd hl h2
    | cons x xs => rfl
  refine ⟨⟨holdingsCols g r1,
      (bodyRows g (r1 + 1) r2).map (holdingsEnrich g pid r1 c1)⟩,
    ⟨holdingsCols g r2,
      (bodyRows g (r2 + 1) g.length).map (holdingsEnrich g pid r2 c2)⟩,
    ?_, rfl, rfl, ?_⟩
  · rw [parse_holdings_sheet, hanch, holdingsLoop]
    simp only [holdingsSub, hne1, Bool.false_eq_true, if_false]
    rw [holdingsLoop]
    simp only [holdingsSub, hne2, Bool.false_eq_true, if_false]
    rw [holdingsLoop]
  · intro row hrow
    have hmem : row ∈ bodyRows g (r1 + 1) r2
        ∨ row ∈ bodyRows g (r2 + 1) g.length := List.mem_append.mp hrow
    have hfilter : ∀ a b : Nat, row ∈ bodyRows g a b →
        upperStrip (row.headD Cell.empty) ≠ "TOTAL".data := by
      intro a b hm heq
      have hc := List.of_mem_filter hm
      rw [heq] at hc
      simp [keywordsSkip] at hc
    rcases hmem with hm | hm
    · exact hfilter _ _ hm
    · exact hfilter _ _ hm

/-- Witness for C8: a five-row grid with `ISIN` anchors at rows 0 and 3, a
surviving data row in each body, and a `TOTAL` row in the first body that is
excluded. -/
theorem c8_witness :
    (parse_holdings_sheet
      [[Cell.str "ISIN", Cell.str "QTY"],
       [Cell.str "abc", Cell.num 1],
       [Cell.str "TOTAL", Cell.num 5],
       [Cell.str "ISIN", Cell.str "QTY"],
       [Cell.str "def", Cell.num 2]] "P").length = 2 := by
  obtain ⟨s1, s2, heq, -, -, -⟩ :=
    c8_two_anchors
      [[Cell.str "ISIN", Cell.str "QTY"],
       [Cell.str "abc", Cell.num 1],
       [Cell.str "TOTAL", Cell.num 5],
       [Cell.str "ISIN", Cell.str "QTY"],
       [Cell.str "def", Cell.num 2]] "P" 0 0 3 0
      (by decide) (by decide) (by decide)
  rw [heq]
  rfl
